import Mathlib

/-!
# Verification of the py-package-updater compatibility search engine

Shallow embedding of the core of `py-package-updater`
(`package_updater/update_tester.py`, `package_updater/environment_manager.py`,
and the parts of `package_updater/package_manager.py` they call), together
with proofs about the claims of the specification.

Modelling conventions:

* Python dictionaries are association lists (`List (key × value)`) with the
  insertion-order / overwrite-in-place semantics of Python dicts
  (`dictInsert`, `dlookup`).
* Fallible Python code is `Except PyExc`; an uncaught Python exception is
  `.error e`.  Code whose `try/except` swallows every exception is total.
* The external collaborators (PyPI registry over `requests`, `pip`,
  `venv`, `pytest` subprocesses) are abstracted by a `World` record of
  deterministic response functions; the environment's installed-package
  state (`EnvState`) is threaded explicitly through every operation that
  the Python code performs against the sandbox.
* `version.parse` from `packaging` is abstracted by a world-supplied
  injection of parseable version strings into `Nat` sort keys
  (`World.parseVer`); a `none` key models `InvalidVersion`.
-/

set_option maxHeartbeats 1000000

namespace PkgUpd

/-- Uncaught Python exception kinds relevant to this code base. -/
inductive PyExc where
  | keyError
  | valueError
  deriving DecidableEq, Repr

/-- Installed-package state of the sandbox: `none` when no virtual
environment exists on disk, `some m` when it exists with installed
mapping `m` (package name, installed version). -/
abbrev EnvState := Option (List (String × String))

/-- Python-dict lookup `d[k]`-style search by key equality
(first binding wins; with `dictInsert` below keys stay unique). -/
def dlookup {α : Type} : List (String × α) → String → Option α
  | [], _ => none
  | (k, a) :: rest, key => if k = key then some a else dlookup rest key

/-- Python-dict assignment `d[k] = a`: overwrite in place if the key is
present (keeping its original insertion position), else append. -/
def dictInsert {α : Type} (d : List (String × α)) (k : String) (a : α) :
    List (String × α) :=
  if (dlookup d k).isSome then
    d.map (fun p => if p.1 = k then (k, a) else p)
  else
    d ++ [(k, a)]

/-- `update_tester.UpdateResult`: outcome of testing one candidate
version of one package. -/
structure UpdateResult where
  success : Bool
  old_version : String
  new_version : String
  error_message : Option String
  test_output : Option String
  deriving DecidableEq, Repr

/-- `update_tester.PackageUpdateStatus`: the per-package result record. -/
structure PackageUpdateStatus where
  package_name : String
  current_version : String
  target_version : String
  compatible_version : Option String
  tested_versions : List String
  failed_versions : List (String × Option String)
  deriving DecidableEq, Repr

/-- JSON body of a PyPI `pypi/{name}/json` response, restricted to the
two paths the code reads.  A `none` field models the key being absent
from the JSON object, which makes the subscript raise `KeyError`. -/
structure RegistryBody where
  infoVersion : Option String
  releases : Option (List String)
  deriving DecidableEq, Repr

/-- Result of `requests.get` on the registry URL: either a
`requests.RequestException` or a response with a status code and body. -/
inductive RegistryResp where
  | reqError
  | resp (status : Nat) (body : RegistryBody)
  deriving DecidableEq, Repr

/-- The deterministic behaviour of every external collaborator, plus the
pre-parsed current package set (`PackageManager.current_packages`). -/
structure World where
  /-- `package_manager.current_packages`: name → pinned version
  (`none` for a requirements line without a version). -/
  currentPackages : List (String × Option String)
  /-- Registry response for `https://pypi.org/pypi/{name}/json`. -/
  registry : String → RegistryResp
  /-- `packaging.version.parse` as an order-embedding into `Nat`;
  `none` models `InvalidVersion`. -/
  parseVer : String → Option Nat
  /-- Whether `shutil.rmtree` on an existing sandbox succeeds. -/
  rmtreeOk : Bool
  /-- Whether `venv.create(..., with_pip=True)` succeeds. -/
  venvCreateOk : Bool
  /-- Installed set of a freshly created virtual environment. -/
  freshPackages : List (String × String)
  /-- On-disk state left behind by a failed `venv.create`. -/
  createFailState : EnvState
  /-- Effect of `pip install -r <reqs>` on the sandbox: success flag and
  new installed state. -/
  pipInstallReqs : EnvState → List (String × Option String) → Bool × EnvState
  /-- Effect of `pip install name==version` (or `pip install name`). -/
  pipInstall : EnvState → String → Option String → Bool × EnvState
  /-- `pip list --format=json` as parsed by `get_installed_packages`
  (already `{}` on pip or JSON failure, per the source). -/
  pipList : EnvState → List (String × String)
  /-- `TestDiscovery.find_test_files()`. -/
  testFiles : List String
  /-- `python -m pytest <files>` inside the sandbox: pass flag, output. -/
  runPytest : EnvState → List String → Bool × String

/-- `self.package_manager.current_packages.get(package_name)` combined
with the Python truthiness test `if not current_version`: returns `some`
only for a present, non-`None`, non-empty pinned version. -/
def lookupCurrent (ps : List (String × Option String)) (pkg : String) :
    Option String :=
  match dlookup ps pkg with
  | some (some v) => if v = "" then none else some v
  | _ => none

/-- `environment_manager.create_virtual_environment`: remove any
existing sandbox, then provision a fresh one; `False` (state unchanged)
if `rmtree` raises, `False` (wreck state) if `venv.create` raises. -/
def create_virtual_environment (w : World) (s : EnvState) : Bool × EnvState :=
  if s.isSome && !w.rmtreeOk then (false, s)
  else if w.venvCreateOk then (true, some w.freshPackages)
  else (false, w.createFailState)

/-- `environment_manager.install_requirements`: batch `pip install -r`
through a transient requirements file (the file itself has no bearing on
the installed state). -/
def install_requirements (w : World) (s : EnvState)
    (reqs : List (String × Option String)) : Bool × EnvState :=
  w.pipInstallReqs s reqs

/-- `environment_manager.install_package`. -/
def install_package (w : World) (s : EnvState) (pkg : String)
    (ver : Option String) : Bool × EnvState :=
  w.pipInstall s pkg ver

/-- `environment_manager.get_installed_packages` (already degrades to an
empty mapping on pip/JSON failure inside the source). -/
def get_installed_packages (w : World) (s : EnvState) : List (String × String) :=
  w.pipList s

/-- Python `str.lower()`, modelled character-wise. -/
def pyLower (s : String) : String :=
  String.mk (s.toList.map Char.toLower)

/-- Core loop of `environment_manager.verify_installation`, parameterised
by the installed mapping.  The first conjunct of each Python step is the
case-insensitive membership test; the second subscripts `installed` by
the *exact* required name, which raises `KeyError` when absent. -/
def verifyReqs (installed : List (String × String)) :
    List (String × Option String) → Except PyExc Bool
  | [] => .ok true
  | (pkg, ver) :: rest =>
    if !(installed.any fun kv => pyLower kv.1 = pyLower pkg) then .ok false
    else
      match ver with
      | none => verifyReqs installed rest
      | some v =>
        if v = "" then verifyReqs installed rest
        else
          match dlookup installed pkg with
          | none => .error .keyError
          | some iv => if iv ≠ v then .ok false else verifyReqs installed rest

/-- `environment_manager.verify_installation`. -/
def verify_installation (w : World) (s : EnvState)
    (reqs : List (String × Option String)) : Except PyExc Bool :=
  verifyReqs (get_installed_packages w s) reqs

/-- `update_tester.setup_test_environment`: recreate the sandbox,
reinstall the pinned baseline, verify it; its `try/except` converts any
exception (e.g. `KeyError` out of `verify_installation`) into `False`. -/
def setup_test_environment (w : World) (s : EnvState) : Bool × EnvState :=
  let cr := create_virtual_environment w s
  if cr.1 then
    let ir := install_requirements w cr.2 w.currentPackages
    if ir.1 then
      match verify_installation w ir.2 w.currentPackages with
      | .error _ => (false, ir.2)
      | .ok b => (b, ir.2)
    else (false, ir.2)
  else (false, cr.2)

/-- `update_tester.run_tests`: discovered test files, or the sentinel
failure when none exist. -/
def run_tests (w : World) (s : EnvState) : Bool × String :=
  if w.testFiles = [] then (false, "No test files found")
  else w.runPytest s w.testFiles

/-- `update_tester.test_package_update`: current-version lookup, install
of the candidate, then the test run, folded into an `UpdateResult`.  All
inner operations are total, so its `try/except` has no raising branch. -/
def test_package_update (w : World) (pkg ver : String) (s : EnvState) :
    UpdateResult × EnvState :=
  match lookupCurrent w.currentPackages pkg with
  | none =>
    (⟨false, "unknown", ver,
      some ("Package " ++ pkg ++ " not found in current packages"), none⟩, s)
  | some cur =>
    let inst := install_package w s pkg (some ver)
    if inst.1 then
      let rt := run_tests w inst.2
      if rt.1 then (⟨true, cur, ver, none, some rt.2⟩, inst.2)
      else (⟨false, cur, ver, some "Tests failed", some rt.2⟩, inst.2)
    else
      (⟨false, cur, ver,
        some ("Failed to install " ++ pkg ++ "==" ++ ver), none⟩, inst.2)

/-- `package_manager.get_latest_version`: a `RequestException` or a
non-200 status yields `None`; a 200 body without `info.version`
raises `KeyError` (only `RequestException` is caught in the source). -/
def get_latest_version (w : World) (pkg : String) : Except PyExc (Option String) :=
  match w.registry pkg with
  | .reqError => .ok none
  | .resp status body =>
    if status = 200 then
      match body.infoVersion with
      | some v => .ok (some v)
      | none => .error .keyError
    else .ok none

/-- Sort key for a version string under the branch where every string in
play is parseable. -/
def verKey (w : World) (v : String) : Nat :=
  (w.parseVer v).getD 0

/-- Python's stable ascending `list.sort(key=version.parse)`. -/
def sortByVer (w : World) (l : List String) : List String :=
  l.insertionSort (fun a b => verKey w a ≤ verKey w b)

/-- The inclusive slice `all_versions[current_idx : latest_idx + 1]` of
`get_version_range`, over the sorted release list. -/
def rangeSlice (w : World) (sorted : List String) (cur latest : String) :
    List String :=
  let ci := (sorted.findIdx? (fun v => verKey w cur ≤ verKey w v)).getD 0
  let li := (sorted.findIdx? (fun v => verKey w latest ≤ verKey w v)).getD sorted.length
  (sorted.drop ci).take (li + 1 - ci)

/-- `package_manager.get_version_range`: request and status failures are
caught and yield `[]`, as is any `InvalidVersion` raised while sorting or
while scanning for the slice indices; a 200 body without a `releases`
key raises `KeyError`.  (The generator expressions are lazy, so with an
empty release list `version.parse` is never called and the result is the
empty slice.) -/
def get_version_range (w : World) (pkg cur latest : String) :
    Except PyExc (List String) :=
  match w.registry pkg with
  | .reqError => .ok []
  | .resp status body =>
    if status = 200 then
      match body.releases with
      | none => .error .keyError
      | some rel =>
        if rel.all (fun v => (w.parseVer v).isSome) then
          if rel = [] then .ok []
          else if (w.parseVer cur).isSome && (w.parseVer latest).isSome then
            .ok (rangeSlice w (sortByVer w rel) cur latest)
          else .ok []
        else .ok []
    else .ok []

/-- Accumulator of the candidate loop in `find_compatible_update`. -/
structure LoopAcc where
  env : EnvState
  tested : List String
  failed : List (String × Option String)
  compatible : Option String
  deriving DecidableEq, Repr

/-- One iteration of the candidate loop of `find_compatible_update`:
skip the current version, otherwise reset the environment (result
discarded, as in the source), test the candidate, and record it. -/
def candStep (w : World) (pkg cur : String) (acc : LoopAcc) (v : String) :
    LoopAcc :=
  if v = cur then acc
  else
    let s1 := (setup_test_environment w acc.env).2
    let p := test_package_update w pkg v s1
    ⟨p.2, acc.tested ++ [v],
      if p.1.success then acc.failed
      else dictInsert acc.failed v p.1.error_message,
      if p.1.success then some v else acc.compatible⟩

/-- `update_tester.find_compatible_update`.  Errors escaping the two
registry calls propagate (there is no `try` in this function); the
candidate loop itself is total. -/
def find_compatible_update (w : World) (pkg : String) (s : EnvState) :
    Except PyExc (PackageUpdateStatus × EnvState) :=
  match lookupCurrent w.currentPackages pkg with
  | none => .ok (⟨pkg, "unknown", "unknown", none, [], []⟩, s)
  | some cur =>
    match get_latest_version w pkg with
    | .error e => .error e
    | .ok latestOpt =>
      match latestOpt with
      | none => .ok (⟨pkg, cur, "unknown", none, [], []⟩, s)
      | some latest =>
        if latest = "" then .ok (⟨pkg, cur, "unknown", none, [], []⟩, s)
        else
          match get_version_range w pkg cur latest with
          | .error e => .error e
          | .ok versions =>
            let acc := versions.foldl (candStep w pkg cur) ⟨s, [], [], none⟩
            .ok (⟨pkg, cur, latest, acc.compatible, acc.tested, acc.failed⟩,
                 acc.env)

/-- Iteration of `update_all_packages` over the package names. -/
def updateAllGo (w : World) :
    List String → List (String × PackageUpdateStatus) → EnvState →
    Except PyExc (List (String × PackageUpdateStatus) × EnvState)
  | [], acc, s => .ok (acc, s)
  | n :: rest, acc, s =>
    match find_compatible_update w n s with
    | .error e => .error e
    | .ok (st, s1) => updateAllGo w rest (dictInsert acc n st) s1

/-- `update_tester.update_all_packages`: one shared baseline setup, then
`find_compatible_update` for every known package. -/
def update_all_packages (w : World) (s : EnvState) :
    Except PyExc (List (String × PackageUpdateStatus) × EnvState) :=
  match setup_test_environment w s with
  | (false, s1) => .ok ([], s1)
  | (true, s1) => updateAllGo w (w.currentPackages.map (·.1)) [] s1

/-- Trace of the candidate loop: for each candidate actually attempted
(in order), the `UpdateResult` it produced, together with the final
environment state.  This mirrors the loop body of
`find_compatible_update` after the current-version skip. -/
def runOutcomes (w : World) (pkg : String) :
    EnvState → List String → List (String × UpdateResult) × EnvState
  | s, [] => ([], s)
  | s, v :: vs =>
    let s1 := (setup_test_environment w s).2
    let p := test_package_update w pkg v s1
    let rest := runOutcomes w pkg p.2 vs
    ((v, p.1) :: rest.1, rest.2)

/-- The failure ledger accumulated from a trace (dict-insert per failing
candidate, exactly as the loop does). -/
def accFailed (f : List (String × Option String)) :
    List (String × UpdateResult) → List (String × Option String)
  | [] => f
  | (v, r) :: tr =>
    accFailed (if r.success then f else dictInsert f v r.error_message) tr

/-- The compatible-version accumulator over a trace: each success
overwrites the previous value. -/
def lastPassAux (c : Option String) :
    List (String × UpdateResult) → Option String
  | [] => c
  | (v, r) :: tr => lastPassAux (if r.success then some v else c) tr

/-- For each walked candidate, the environment state at which the loop
of `find_compatible_update` invokes `test_package_update` on it (the
state right after the discarded per-candidate reset). -/
def runStates (w : World) (pkg : String) :
    EnvState → List String → List (String × EnvState)
  | _, [] => []
  | s, v :: vs =>
    let s1 := (setup_test_environment w s).2
    let p := test_package_update w pkg v s1
    (v, s1) :: runStates w pkg p.2 vs

/-- Python `str.strip()` (whitespace removed at both ends). -/
def pyStrip (s : String) : String :=
  String.mk (((s.toList.dropWhile Char.isWhitespace).reverse.dropWhile
    Char.isWhitespace).reverse)

/-- Python `str.split(sep)` for a two-character separator `a·b`, over the
character list: splits at left-to-right, non-overlapping occurrences. -/
def split2 (a b : Char) : List Char → List (List Char)
  | [] => [[]]
  | [c] => [[c]]
  | c1 :: c2 :: rest =>
    if c1 = a ∧ c2 = b then [] :: split2 a b rest
    else
      match split2 a b (c2 :: rest) with
      | [] => [[c1]]
      | h :: t => (c1 :: h) :: t

def pySplit2 (a b : Char) (s : String) : List String :=
  (split2 a b s.toList).map String.mk

/-- Python `str.startswith('#')`. -/
def pyStartsHash (s : String) : Bool :=
  match s.toList with
  | c :: _ => c = '#'
  | [] => false

/-- Python `str.split()` (split on whitespace, dropping empty parts). -/
def pySplitWs (s : String) : List String :=
  ((s.toList.splitOnP Char.isWhitespace).filter (· ≠ [])).map String.mk

/-- Characters kept by `re.sub(r'[^a-zA-Z0-9-_.]', '', name)`. -/
def allowedChar (c : Char) : Bool :=
  c.isAlphanum || c == '-' || c == '_' || c == '.'

/-- The regex strip applied to a requirement name. -/
def stripName (s : String) : String :=
  String.mk (s.toList.filter allowedChar)

/-- Line loop of `package_manager.parse_requirements_txt`.  An
unpacking `name, ver = line.split(op)` with more than two parts raises
`ValueError` (uncaught in the source). -/
def parseReqLines :
    List String → List (String × Option String) →
    Except PyExc (List (String × Option String))
  | [], acc => .ok acc
  | raw :: rest, acc =>
    let line := pyStrip raw
    if line = "" || pyStartsHash line then parseReqLines rest acc
    else
      let parsed : Except PyExc (String × Option String) :=
        if (pySplit2 '>' '=' line).length ≥ 2 then
          match pySplit2 '>' '=' line with
          | [n, vr] => .ok (n, some vr)
          | _ => .error .valueError
        else if (pySplit2 '=' '=' line).length ≥ 2 then
          match pySplit2 '=' '=' line with
          | [n, vr] => .ok (n, some vr)
          | _ => .error .valueError
        else .ok ((pySplitWs line).headD "", none)
      match parsed with
      | .error e => .error e
      | .ok (n, vr) =>
        let key := pyStrip (stripName n)
        let val : Option String :=
          match vr with
          | none => none
          | some s => if s = "" then none else some (pyStrip s)
        parseReqLines rest (dictInsert acc key val)

/-- `package_manager.parse_requirements_txt`, over the file's lines. -/
def parse_requirements_txt (fileLines : List String) :
    Except PyExc (List (String × Option String)) :=
  parseReqLines fileLines []

/-- C5 counterexample: with a package present in the current set and a
registry that answers status 200 with a JSON body lacking the
`info`/`version` keys, `find_compatible_update` raises `KeyError`
(the source's `except requests.RequestException` does not catch it), so
it does not hold for every behaviour of the external collaborators that
the function never raises. -/
def wBadRegistry : World where
  currentPackages := [("requests", some "2.25.1")]
  registry := fun _ => .resp 200 ⟨none, none⟩
  parseVer := fun _ => none
  rmtreeOk := true
  venvCreateOk := true
  freshPackages := []
  createFailState := none
  pipInstallReqs := fun s _ => (true, s)
  pipInstall := fun s _ _ => (true, s)
  pipList := fun s => s.getD []
  testFiles := []
  runPytest := fun _ _ => (true, "")

/-- A healthy world: one pinned package `p == 1.0`, registry offering
`1.0 < 1.1 < 1.2`, installs recorded into the sandbox state, tests
passing. -/
def wGood : World where
  currentPackages := [("p", some "1.0")]
  registry := fun _ => .resp 200 ⟨some "1.2", some ["1.0", "1.1", "1.2"]⟩
  parseVer := fun s =>
    if s = "1.0" then some 0
    else if s = "1.1" then some 1
    else if s = "1.2" then some 2
    else none
  rmtreeOk := true
  venvCreateOk := true
  freshPackages := [("pip", "24.0")]
  createFailState := none
  pipInstallReqs := fun s reqs =>
    (true, s.map fun m =>
      reqs.foldl (fun acc pr => dictInsert acc pr.1 (pr.2.getD "")) m)
  pipInstall := fun s pkg v => (true, s.map fun m => dictInsert m pkg (v.getD ""))
  pipList := fun s => s.getD []
  testFiles := ["tests/test_sample.py"]
  runPytest := fun _ _ => (true, "1 passed")

/-- A world whose sandbox provisioning always fails (`venv.create`
raises), every `pip install` fails, and no test files exist. -/
def wSetupFail : World where
  currentPackages := [("p", some "1.0")]
  registry := fun _ => .resp 200 ⟨some "1.2", some ["1.0", "1.1", "1.2"]⟩
  parseVer := fun s =>
    if s = "1.0" then some 0
    else if s = "1.1" then some 1
    else if s = "1.2" then some 2
    else none
  rmtreeOk := true
  venvCreateOk := false
  freshPackages := []
  createFailState := none
  pipInstallReqs := fun s _ => (false, s)
  pipInstall := fun s _ _ => (false, s)
  pipList := fun s => s.getD []
  testFiles := []
  runPytest := fun _ _ => (false, "")

/-- Status that `find_compatible_update` computes for `p` under `wGood`. -/
def stGood : PackageUpdateStatus :=
  ⟨"p", "1.0", "1.2", some "1.2", ["1.1", "1.2"], []⟩

/-- Status that `find_compatible_update` computes for `p` under
`wSetupFail`. -/
def stFail : PackageUpdateStatus :=
  ⟨"p", "1.0", "1.2", none, ["1.1", "1.2"],
    [("1.1", some "Failed to install p==1.1"),
     ("1.2", some "Failed to install p==1.2")]⟩

/-- `wGood` with no test files: installs succeed, but `run_tests` can
only report the "No test files found" failure. -/
def wNoTests : World :=
  { wGood with testFiles := [], runPytest := fun _ _ => (true, "") }

/-- Status that `find_compatible_update` computes for `p` under
`wNoTests`: both candidates install fine and are ledgered with
"Tests failed". -/
def stNoTests : PackageUpdateStatus :=
  ⟨"p", "1.0", "1.2", none, ["1.1", "1.2"],
    [("1.1", some "Tests failed"), ("1.2", some "Tests failed")]⟩

/-- `wGood` with a current-package set parsed from a one-line
requirements file whose single line carries no version. -/
def wNoVersion : World :=
  { wGood with
    currentPackages :=
      match parse_requirements_txt ["requests"] with
      | .ok m => m
      | .error _ => [] }

/-- The registry never answers a 200 whose JSON body is missing the
`info.version` or `releases` keys (the well-formedness under which the
source's exception handling is complete). -/
def registryWellFormed (w : World) : Prop :=
  ∀ pkg body, w.registry pkg = RegistryResp.resp 200 body →
    body.infoVersion.isSome ∧ body.releases.isSome

/-- Left-biased choice on options (`a` if present, else `b`). -/
def optOrElse {α : Type} (a b : Option α) : Option α :=
  match a with
  | some x => some x
  | none => b

theorem optOrElse_none_right {α : Type} (a : Option α) :
    optOrElse a none = a := by
  cases a <;> rfl

theorem optOrElse_some_of_isSome {α : Type} (a b : Option α)
    (h : a.isSome) : optOrElse a b = a := by
  cases a
  · simp at h
  · rfl

theorem dlookup_append {α : Type} (l1 l2 : List (String × α)) (key : String) :
    dlookup (l1 ++ l2) key = optOrElse (dlookup l1 key) (dlookup l2 key) := by
  induction l1 with
  | nil => rfl
  | cons p rest ih =>
    obtain ⟨k, a⟩ := p
    by_cases h : k = key <;> simp [dlookup, h, ih, optOrElse]

theorem dlookup_overwrite {α : Type} (d : List (String × α)) (k : String)
    (a : α) (key : String) :
    dlookup (d.map fun p => if p.1 = k then (k, a) else p) key =
      if key = k then (dlookup d k).map (fun _ => a) else dlookup d key := by
  induction d with
  | nil => by_cases h : key = k <;> simp [dlookup, h]
  | cons p rest ih =>
    obtain ⟨k', b⟩ := p
    rw [List.map_cons]
    have hfun : (if (k', b).1 = k then (k, a) else (k', b)) =
        if k' = k then (k, a) else (k', b) := rfl
    rw [hfun]
    by_cases hk : k' = k
    · rw [if_pos hk]
      subst hk
      by_cases hkey : key = k'
      · subst hkey
        simp [dlookup]
      · simp [dlookup, hkey, Ne.symm hkey, ih]
    · rw [if_neg hk]
      by_cases hkey : k' = key
      · subst hkey
        have hnk : ¬k' = k := hk
        simp [dlookup, hnk]
      · simp [dlookup, hkey, hk, ih]

/-- Lookup after a Python-dict assignment. -/
theorem dlookup_dictInsert {α : Type} (d : List (String × α)) (k : String)
    (a : α) (key : String) :
    dlookup (dictInsert d k a) key = if key = k then some a else dlookup d key := by
  unfold dictInsert
  by_cases hs : (dlookup d k).isSome
  · simp only [hs, if_true]
    rw [dlookup_overwrite]
    by_cases hkey : key = k
    · subst hkey
      obtain ⟨x, hx⟩ := Option.isSome_iff_exists.mp hs
      simp [hx]
    · simp [hkey]
  · simp only [hs, if_false, Bool.false_eq_true]
    rw [dlookup_append]
    by_cases hkey : key = k
    · subst hkey
      rw [Option.not_isSome_iff_eq_none] at hs
      simp [hs, dlookup, optOrElse]
    · have hlk : dlookup [(k, a)] key = none := by simp [dlookup, Ne.symm hkey]
      rw [hlk, optOrElse_none_right, if_neg hkey]

theorem dictInsert_of_fresh {α : Type} (d : List (String × α)) (k : String)
    (a : α) (h : dlookup d k = none) : dictInsert d k a = d ++ [(k, a)] := by
  simp [dictInsert, h]

/-- Membership among a dict's keys coincides with a successful lookup. -/
theorem mem_keys_iff_dlookup_isSome {α : Type} (d : List (String × α))
    (key : String) : key ∈ d.map (·.1) ↔ (dlookup d key).isSome := by
  induction d with
  | nil => simp [dlookup]
  | cons p rest ih =>
    obtain ⟨k, a⟩ := p
    by_cases h : k = key
    · subst h
      simp [dlookup]
    · simp [dlookup, h, Ne.symm h, ih]

theorem getLast?_cons_optOrElse {α : Type} (l : List α) (a : α) (c : Option α) :
    optOrElse (a :: l).getLast? c = optOrElse l.getLast? (some a) := by
  cases l with
  | nil => rfl
  | cons b bs =>
    rw [List.getLast?_cons_cons]
    have h : (b :: bs).getLast?.isSome := by
      rw [List.getLast?_isSome]
      simp
    rw [optOrElse_some_of_isSome _ _ h, optOrElse_some_of_isSome _ _ h]

/-- The compatible-version fold computes the last passing entry of the
trace (falling back to the initial value when none passes). -/
theorem lastPassAux_eq (tr : List (String × UpdateResult)) (c : Option String) :
    lastPassAux c tr =
      optOrElse (((tr.filter (fun p => p.2.success)).map (·.1)).getLast?) c := by
  induction tr generalizing c with
  | nil => rfl
  | cons p tr ih =>
    obtain ⟨v, r⟩ := p
    cases hs : r.success with
    | false =>
      have hfil : List.filter (fun p => p.2.success) ((v, r) :: tr) =
          List.filter (fun p => p.2.success) tr := by
        simp [List.filter_cons, hs]
      rw [hfil]
      show lastPassAux (if r.success then some v else c) tr = _
      rw [hs]
      simp only [Bool.false_eq_true, if_false]
      exact ih c
    | true =>
      have hfil : List.filter (fun p => p.2.success) ((v, r) :: tr) =
          (v, r) :: List.filter (fun p => p.2.success) tr := by
        simp [List.filter_cons, hs]
      rw [hfil, List.map_cons, getLast?_cons_optOrElse]
      show lastPassAux (if r.success then some v else c) tr = _
      rw [hs]
      simp only [if_true]
      exact ih (some v)

theorem lastPassAux_mem (tr : List (String × UpdateResult)) (v : String)
    (h : lastPassAux none tr = some v) :
    ∃ r, (v, r) ∈ tr ∧ r.success = true := by
  rw [lastPassAux_eq, optOrElse_none_right] at h
  have hv : v ∈ (tr.filter (fun p => p.2.success)).map (·.1) := by
    have hvmem : v ∈ ((tr.filter (fun p => p.2.success)).map (·.1)).getLast? :=
      Option.mem_def.mpr h
    obtain ⟨hne, hx⟩ := List.mem_getLast?_eq_getLast hvmem
    rw [hx]
    exact List.getLast_mem hne
  obtain ⟨⟨pv, pr⟩, hp, rfl⟩ := List.mem_map.mp hv
  obtain ⟨hmem, hsucc⟩ := List.mem_filter.mp hp
  exact ⟨pr, hmem, hsucc⟩

theorem lastPassAux_of_all_fail (tr : List (String × UpdateResult))
    (c : Option String) (h : ∀ p ∈ tr, p.2.success = false) :
    lastPassAux c tr = c := by
  induction tr generalizing c with
  | nil => rfl
  | cons p tr ih =>
    obtain ⟨v, r⟩ := p
    have hr : r.success = false := h (v, r) (List.mem_cons_self _ _)
    simp only [lastPassAux, hr]
    exact ih c (fun q hq => h q (List.mem_cons_of_mem _ hq))

/-- Keys present in the accumulated failure ledger come from the initial
ledger or from a failing trace entry. -/
theorem accFailed_isSome_inv (tr : List (String × UpdateResult)) (v : String) :
    ∀ f : List (String × Option String), (dlookup (accFailed f tr) v).isSome →
      (dlookup f v).isSome ∨ ∃ r, (v, r) ∈ tr ∧ r.success = false := by
  induction tr with
  | nil => exact fun f h => Or.inl h
  | cons p tr ih =>
    intro f h
    obtain ⟨u, r⟩ := p
    simp only [accFailed] at h
    rcases ih _ h with hf | ⟨r', hr', hs'⟩
    · by_cases hs : r.success = true
      · rw [if_pos hs] at hf
        exact Or.inl hf
      · rw [if_neg hs] at hf
        rw [dlookup_dictInsert] at hf
        by_cases hv : v = u
        · subst hv
          exact Or.inr ⟨r, List.mem_cons_self _ _, Bool.eq_false_iff.mpr hs⟩
        · rw [if_neg hv] at hf
          exact Or.inl hf
    · exact Or.inr ⟨r', List.mem_cons_of_mem _ hr', hs'⟩

theorem accFailed_isSome_mono (tr : List (String × UpdateResult)) (v : String) :
    ∀ f : List (String × Option String), (dlookup f v).isSome →
      (dlookup (accFailed f tr) v).isSome := by
  induction tr with
  | nil => exact fun f h => h
  | cons p tr ih =>
    intro f h
    obtain ⟨u, r⟩ := p
    simp only [accFailed]
    apply ih
    by_cases hs : r.success = true
    · rwa [if_pos hs]
    · rw [if_neg hs, dlookup_dictInsert]
      by_cases hv : v = u <;> simp [hv, h]

/-- A failing trace entry always leaves its version among the ledger's
keys. -/
theorem accFailed_isSome_of_fail (tr : List (String × UpdateResult))
    (v : String) (r : UpdateResult) (hfail : r.success = false) :
    ∀ f : List (String × Option String), (v, r) ∈ tr →
      (dlookup (accFailed f tr) v).isSome := by
  induction tr with
  | nil => intro f h; cases h
  | cons p tr ih =>
    intro f hmem
    rcases List.mem_cons.mp hmem with heq | htail
    · rw [← heq]
      simp only [accFailed, hfail, Bool.false_eq_true, if_false]
      apply accFailed_isSome_mono
      rw [dlookup_dictInsert, if_pos rfl]
      rfl
    · simp only [accFailed]
      exact ih _ htail

/-- Every binding of the accumulated ledger satisfies a per-key predicate
that holds of the initial ledger and of every failing entry's message. -/
theorem accFailed_pred (P : String → Option String → Prop) :
    ∀ tr : List (String × UpdateResult),
      (∀ p ∈ tr, p.2.success = false → P p.1 p.2.error_message) →
      ∀ f : List (String × Option String),
        (∀ u m, dlookup f u = some m → P u m) →
        ∀ u m, dlookup (accFailed f tr) u = some m → P u m := by
  intro tr
  induction tr with
  | nil => exact fun _ f hf => hf
  | cons p tr ih =>
    intro htr f hf
    obtain ⟨v, r⟩ := p
    simp only [accFailed]
    refine ih (fun q hq hqs => htr q (List.mem_cons_of_mem _ hq) hqs) _ ?_
    intro u m hm
    by_cases hs : r.success = true
    · rw [if_pos hs] at hm
      exact hf u m hm
    · rw [if_neg hs, dlookup_dictInsert] at hm
      by_cases hu : u = v
      · subst hu
        rw [if_pos rfl] at hm
        cases hm
        exact htr (u, r) (List.mem_cons_self _ _) (Bool.eq_false_iff.mpr hs)
      · rw [if_neg hu] at hm
        exact hf u m hm

/-- A key outside the trace's versions is untouched by the ledger
accumulation. -/
theorem accFailed_lookup_not_mem (v : String) :
    ∀ (tr : List (String × UpdateResult)) (f : List (String × Option String)),
      v ∉ tr.map (·.1) → dlookup (accFailed f tr) v = dlookup f v := by
  intro tr
  induction tr with
  | nil => intro f _; rfl
  | cons p tr ih =>
    intro f hv
    obtain ⟨u, r⟩ := p
    have hvu : v ≠ u := fun h => hv (by simp [h])
    have hvtr : v ∉ tr.map (·.1) := fun h => hv (by simp [h])
    simp only [accFailed]
    rw [ih _ hvtr]
    by_cases hs : r.success = true
    · rw [if_pos hs]
    · rw [if_neg hs, dlookup_dictInsert, if_neg hvu]

/-- With duplicate-free trace versions, a failing entry's version is
mapped by the accumulated ledger exactly to that entry's message. -/
theorem accFailed_lookup_of_fail (v : String) (r : UpdateResult)
    (hfail : r.success = false) :
    ∀ tr : List (String × UpdateResult), (tr.map (·.1)).Nodup →
      (v, r) ∈ tr → ∀ f, dlookup (accFailed f tr) v = some r.error_message := by
  intro tr
  induction tr with
  | nil => intro _ hmem; cases hmem
  | cons p tr ih =>
    intro hnd hmem f
    obtain ⟨u, r0⟩ := p
    rw [List.map_cons] at hnd
    have hnd' := List.nodup_cons.mp hnd
    rcases List.mem_cons.mp hmem with heq | htail
    · cases heq
      simp only [accFailed, hfail, Bool.false_eq_true, if_false]
      rw [accFailed_lookup_not_mem v tr _ hnd'.1, dlookup_dictInsert,
        if_pos rfl]
    · simp only [accFailed]
      exact ih hnd'.2 htail _

/-- The versions of the per-candidate state list are exactly the walked
candidate list. -/
theorem runStates_map_fst (w : World) (pkg : String) :
    ∀ (vs : List String) (s : EnvState),
      (runStates w pkg s vs).map (·.1) = vs := by
  intro vs
  induction vs with
  | nil => intro s; rfl
  | cons v vs ih => intro s; simp [runStates, ih]

/-- Every per-candidate state pair corresponds to the trace entry whose
result is `test_package_update` run at that very state. -/
theorem runOutcomes_of_runStates (w : World) (pkg : String) :
    ∀ (vs : List String) (s : EnvState) (q : String × EnvState),
      q ∈ runStates w pkg s vs →
      (q.1, (test_package_update w pkg q.1 q.2).1) ∈
        (runOutcomes w pkg s vs).1 := by
  intro vs
  induction vs with
  | nil => intro s q hq; cases hq
  | cons v vs ih =>
    intro s q hq
    simp only [runStates] at hq
    rcases List.mem_cons.mp hq with heq | htail
    · subst heq
      simp only [runOutcomes]
      exact List.mem_cons_self _ _
    · simp only [runOutcomes]
      exact List.mem_cons_of_mem _ (ih _ q htail)

/-- The versions of the trace are exactly the walked candidate list. -/
theorem runOutcomes_map_fst (w : World) (pkg : String) (s : EnvState)
    (vs : List String) : ((runOutcomes w pkg s vs).1.map (·.1)) = vs := by
  induction vs generalizing s with
  | nil => rfl
  | cons v vs ih => simp [runOutcomes, ih]

/-- Every trace entry's result is produced by `test_package_update` at
some intermediate environment state. -/
theorem runOutcomes_entries (w : World) (pkg : String)
    (P : String → UpdateResult → Prop)
    (hP : ∀ v t, P v (test_package_update w pkg v t).1) :
    ∀ (vs : List String) (s : EnvState), ∀ p ∈ (runOutcomes w pkg s vs).1, P p.1 p.2 := by
  intro vs
  induction vs with
  | nil => intro s p hp; cases hp
  | cons v vs ih =>
    intro s p hp
    simp only [runOutcomes] at hp
    rcases List.mem_cons.mp hp with heq | htail
    · subst heq
      exact hP v _
    · exact ih _ p htail

/-- Characterisation of the candidate loop of `find_compatible_update`:
folding `candStep` over the raw candidate list equals, component-wise,
the trace obtained by walking the candidates distinct from the current
version. -/
theorem foldl_candStep (w : World) (pkg cur : String) (vs : List String)
    (s : EnvState) (t : List String) (f : List (String × Option String))
    (c : Option String) :
    vs.foldl (candStep w pkg cur) ⟨s, t, f, c⟩ =
      ⟨(runOutcomes w pkg s (vs.filter (· ≠ cur))).2,
       t ++ vs.filter (· ≠ cur),
       accFailed f (runOutcomes w pkg s (vs.filter (· ≠ cur))).1,
       lastPassAux c (runOutcomes w pkg s (vs.filter (· ≠ cur))).1⟩ := by
  induction vs generalizing s t f c with
  | nil => simp [runOutcomes, accFailed, lastPassAux]
  | cons v vs ih =>
    by_cases hv : v = cur
    · have hstep : candStep w pkg cur ⟨s, t, f, c⟩ v = ⟨s, t, f, c⟩ := by
        simp [candStep, hv]
      have hfil : (v :: vs).filter (· ≠ cur) = vs.filter (· ≠ cur) := by
        simp [List.filter_cons, hv]
      rw [List.foldl_cons, hstep, hfil]
      exact ih s t f c
    · have hfil : (v :: vs).filter (· ≠ cur) = v :: vs.filter (· ≠ cur) := by
        simp [List.filter_cons, hv]
      rw [List.foldl_cons, hfil]
      have hstep : candStep w pkg cur ⟨s, t, f, c⟩ v =
          ⟨(test_package_update w pkg v (setup_test_environment w s).2).2,
           t ++ [v],
           if (test_package_update w pkg v (setup_test_environment w s).2).1.success
             then f
             else dictInsert f v
               (test_package_update w pkg v (setup_test_environment w s).2).1.error_message,
           if (test_package_update w pkg v (setup_test_environment w s).2).1.success
             then some v else c⟩ := by
        simp [candStep, hv]
      rw [hstep, ih]
      simp only [runOutcomes, accFailed, lastPassAux, List.append_assoc,
        List.singleton_append]

/-- Closed form of `find_compatible_update` in the main (resolvable)
branch, in terms of the candidate trace. -/
theorem find_compatible_update_spec (w : World) (pkg cur latest : String)
    (vs : List String) (s : EnvState)
    (hcur : lookupCurrent w.currentPackages pkg = some cur)
    (hlat : get_latest_version w pkg = .ok (some latest)) (hne : latest ≠ "")
    (hrng : get_version_range w pkg cur latest = .ok vs) :
    find_compatible_update w pkg s = .ok
      (⟨pkg, cur, latest,
        lastPassAux none (runOutcomes w pkg s (vs.filter (· ≠ cur))).1,
        vs.filter (· ≠ cur),
        accFailed [] (runOutcomes w pkg s (vs.filter (· ≠ cur))).1⟩,
       (runOutcomes w pkg s (vs.filter (· ≠ cur))).2) := by
  simp only [find_compatible_update, hcur, hlat, hrng, hne, if_false]
  rw [foldl_candStep]
  simp

/-- Inversion principle for a successful `find_compatible_update`: the
result is either one of the two terminal "unknown" statuses, or the main
branch's trace-characterised status. -/
theorem find_compatible_update_cases (w : World) (pkg : String) (s : EnvState)
    (st : PackageUpdateStatus) (s2 : EnvState)
    (h : find_compatible_update w pkg s = .ok (st, s2)) :
    (st.tested_versions = [] ∧ st.failed_versions = [] ∧
       st.compatible_version = none ∧ s2 = s) ∨
    ∃ cur latest vs,
      lookupCurrent w.currentPackages pkg = some cur ∧
      get_latest_version w pkg = .ok (some latest) ∧ latest ≠ "" ∧
      get_version_range w pkg cur latest = .ok vs ∧
      st = ⟨pkg, cur, latest,
        lastPassAux none (runOutcomes w pkg s (vs.filter (· ≠ cur))).1,
        vs.filter (· ≠ cur),
        accFailed [] (runOutcomes w pkg s (vs.filter (· ≠ cur))).1⟩ ∧
      s2 = (runOutcomes w pkg s (vs.filter (· ≠ cur))).2 := by
  cases hcur : lookupCurrent w.currentPackages pkg with
  | none =>
    simp only [find_compatible_update, hcur] at h
    cases h
    exact Or.inl ⟨rfl, rfl, rfl, rfl⟩
  | some cur =>
    cases hlat : get_latest_version w pkg with
    | error e =>
      simp only [find_compatible_update, hcur, hlat] at h
      exact Except.noConfusion h
    | ok latestOpt =>
      cases latestOpt with
      | none =>
        simp only [find_compatible_update, hcur, hlat] at h
        cases h
        exact Or.inl ⟨rfl, rfl, rfl, rfl⟩
      | some latest =>
        by_cases hne : latest = ""
        · subst hne
          simp only [find_compatible_update, hcur, hlat] at h
          rw [if_true] at h
          cases h
          exact Or.inl ⟨rfl, rfl, rfl, rfl⟩
        · cases hrng : get_version_range w pkg cur latest with
          | error e =>
            simp only [find_compatible_update, hcur, hlat, hrng, hne,
              if_false] at h
            exact Except.noConfusion h
          | ok vs =>
            rw [find_compatible_update_spec w pkg cur latest vs s hcur hlat
              hne hrng] at h
            cases h
            exact Or.inr ⟨cur, latest, vs, rfl, rfl, hne, hrng, rfl, rfl⟩

/-- PyPI `releases` keys are the keys of a JSON object, hence pairwise
distinct; under that assumption the candidate range is duplicate-free. -/
theorem get_version_range_nodup (w : World) (pkg cur latest : String)
    (vs : List String)
    (hrel : ∀ p stc b rel, w.registry p = .resp stc b →
      b.releases = some rel → rel.Nodup)
    (h : get_version_range w pkg cur latest = .ok vs) : vs.Nodup := by
  cases hreg : w.registry pkg with
  | reqError =>
    simp only [get_version_range, hreg] at h
    cases h
    exact List.nodup_nil
  | resp status body =>
    simp only [get_version_range, hreg] at h
    split at h
    · split at h
      · exact Except.noConfusion h
      · rename_i rel hrl
        have hnd : rel.Nodup := hrel pkg status body rel hreg hrl
        split at h
        · split at h
          · cases h
            exact List.nodup_nil
          · split at h
            · cases h
              have hsort : (sortByVer w rel).Nodup :=
                ((List.perm_insertionSort _ rel).nodup_iff).mpr hnd
              exact hsort.sublist ((List.take_sublist _ _).trans
                (List.drop_sublist _ _))
            · cases h
              exact List.nodup_nil
        · cases h
          exact List.nodup_nil
    · cases h
      exact List.nodup_nil

/-- State component of `setup_test_environment` in closed form: either
the sandbox survives untouched (an existing sandbox whose removal
fails), or the state is determined by the world alone, independently of
the prior state. -/
theorem setup_state_eq (w : World) (s : EnvState) :
    (setup_test_environment w s).2 =
      if s.isSome && !w.rmtreeOk then s
      else if w.venvCreateOk then
        (w.pipInstallReqs (some w.freshPackages) w.currentPackages).2
      else w.createFailState := by
  unfold setup_test_environment create_virtual_environment
  by_cases hrm : (s.isSome && !w.rmtreeOk) = true
  · simp [hrm]
  · simp only [Bool.not_eq_true] at hrm
    by_cases hv : w.venvCreateOk = true
    · simp only [hrm, hv, Bool.false_eq_true, if_false, if_true]
      cases hir : w.pipInstallReqs (some w.freshPackages) w.currentPackages with
      | mk ok s2 =>
        cases ok with
        | false => simp [install_requirements, hir]
        | true =>
          simp only [install_requirements, hir, if_true]
          cases hv2 : verify_installation w s2 w.currentPackages <;> simp
    · simp [hrm, hv]

theorem get_latest_version_ok (w : World) (pkg : String)
    (hwf : registryWellFormed w) :
    ∃ x, get_latest_version w pkg = .ok x := by
  cases hreg : w.registry pkg with
  | reqError => exact ⟨none, by simp [get_latest_version, hreg]⟩
  | resp status body =>
    by_cases hst : status = 200
    · subst hst
      obtain ⟨hi, _⟩ := hwf pkg body hreg
      obtain ⟨v, hv⟩ := Option.isSome_iff_exists.mp hi
      exact ⟨some v, by simp [get_latest_version, hreg, hv]⟩
    · exact ⟨none, by simp [get_latest_version, hreg, hst]⟩

theorem get_version_range_ok (w : World) (pkg cur latest : String)
    (hwf : registryWellFormed w) :
    ∃ l, get_version_range w pkg cur latest = .ok l := by
  cases hreg : w.registry pkg with
  | reqError => exact ⟨[], by simp [get_version_range, hreg]⟩
  | resp status body =>
    by_cases hst : status = 200
    · subst hst
      obtain ⟨_, hr⟩ := hwf pkg body hreg
      obtain ⟨rel, hrel⟩ := Option.isSome_iff_exists.mp hr
      simp only [get_version_range, hreg, hrel, if_true]
      split
      · split
        · exact ⟨[], rfl⟩
        · split
          · exact ⟨_, rfl⟩
          · exact ⟨[], rfl⟩
      · exact ⟨[], rfl⟩
    · exact ⟨[], by simp [get_version_range, hreg, hst]⟩

/-- Under a well-formed registry, `find_compatible_update` is total. -/
theorem find_compatible_update_ok (w : World) (pkg : String) (s : EnvState)
    (hwf : registryWellFormed w) :
    ∃ st s2, find_compatible_update w pkg s = .ok (st, s2) := by
  cases hcur : lookupCurrent w.currentPackages pkg with
  | none =>
    exact ⟨⟨pkg, "unknown", "unknown", none, [], []⟩, s,
      by simp [find_compatible_update, hcur]⟩
  | some cur =>
    obtain ⟨latestOpt, hlat⟩ := get_latest_version_ok w pkg hwf
    cases latestOpt with
    | none =>
      exact ⟨⟨pkg, cur, "unknown", none, [], []⟩, s,
        by simp [find_compatible_update, hcur, hlat]⟩
    | some latest =>
      by_cases hne : latest = ""
      · subst hne
        exact ⟨⟨pkg, cur, "unknown", none, [], []⟩, s,
          by simp [find_compatible_update, hcur, hlat]⟩
      · obtain ⟨vs, hrng⟩ := get_version_range_ok w pkg cur latest hwf
        exact ⟨_, _,
          find_compatible_update_spec w pkg cur latest vs s hcur hlat hne hrng⟩

/-- Under a well-formed registry, the aggregation loop is total. -/
theorem updateAllGo_ok (w : World) (hwf : registryWellFormed w) :
    ∀ (names : List String) (acc : List (String × PackageUpdateStatus))
      (s : EnvState), ∃ out, updateAllGo w names acc s = .ok out := by
  intro names
  induction names with
  | nil => exact fun acc s => ⟨(acc, s), rfl⟩
  | cons n rest ih =>
    intro acc s
    obtain ⟨st, s2, hfind⟩ := find_compatible_update_ok w n s hwf
    obtain ⟨out, hout⟩ := ih (dictInsert acc n st) s2
    exact ⟨out, by simp only [updateAllGo, hfind, hout]⟩

/-- Entries already produced, and every package name still to walk, end
up with an entry in the aggregation loop's result. -/
theorem updateAllGo_covers (w : World) :
    ∀ (names : List String) (acc : List (String × PackageUpdateStatus))
      (s : EnvState) (res : List (String × PackageUpdateStatus))
      (s2 : EnvState), updateAllGo w names acc s = .ok (res, s2) →
      ∀ n, (n ∈ names ∨ (dlookup acc n).isSome) → (dlookup res n).isSome := by
  intro names
  induction names with
  | nil =>
    intro acc s res s2 h n hn
    cases h
    rcases hn with hn | hn
    · cases hn
    · exact hn
  | cons m rest ih =>
    intro acc s res s2 h n hn
    simp only [updateAllGo] at h
    cases hfind : find_compatible_update w m s with
    | error e =>
      rw [hfind] at h
      exact Except.noConfusion h
    | ok p =>
      rw [hfind] at h
      refine ih _ _ _ _ h n ?_
      rcases hn with hn | hn
      · rcases List.mem_cons.mp hn with rfl | hn
        · refine Or.inr ?_
          rw [dlookup_dictInsert, if_pos rfl]
          rfl
        · exact Or.inl hn
      · refine Or.inr ?_
        rw [dlookup_dictInsert]
        by_cases hnm : n = m <;> simp [hnm, hn]

/-- With duplicate-free package names (Python dict keys), the aggregation
loop returns exactly one entry per name, in order. -/
theorem updateAllGo_keys (w : World) :
    ∀ (names : List String) (acc : List (String × PackageUpdateStatus))
      (s : EnvState) (res : List (String × PackageUpdateStatus))
      (s2 : EnvState), names.Nodup →
      (∀ n ∈ names, dlookup acc n = none) →
      updateAllGo w names acc s = .ok (res, s2) →
      res.map (·.1) = acc.map (·.1) ++ names := by
  intro names
  induction names with
  | nil =>
    intro acc s res s2 _ _ h
    cases h
    simp
  | cons m rest ih =>
    intro acc s res s2 hnd hfresh h
    simp only [updateAllGo] at h
    cases hfind : find_compatible_update w m s with
    | error e =>
      rw [hfind] at h
      exact Except.noConfusion h
    | ok p =>
      rw [hfind] at h
      have hm : dlookup acc m = none := hfresh m (List.mem_cons_self _ _)
      have hins : dictInsert acc m p.1 = acc ++ [(m, p.1)] :=
        dictInsert_of_fresh _ _ _ hm
      have hfresh2 : ∀ n ∈ rest, dlookup (dictInsert acc m p.1) n = none := by
        intro n hn
        rw [dlookup_dictInsert]
        have hnm : n ≠ m := by
          intro hEq
          subst hEq
          exact (List.nodup_cons.mp hnd).1 hn
        rw [if_neg hnm]
        exact hfresh n (List.mem_cons_of_mem _ hn)
      have := ih (dictInsert acc m p.1) p.2 res s2
        (List.nodup_cons.mp hnd).2 hfresh2 h
      rw [this, hins]
      simp

/-- C1: when the resolver yields current version `cur`, latest `latest`
and candidate list `vs`, the `compatible_version` of the status returned
by `find_compatible_update` equals the last candidate of the ascending
walk (the candidates of `vs` distinct from `cur`, in order) whose
installation and test run both succeeded — `getLast?` of the passing
entries of the walk's trace — and is `none` when no candidate passed,
regardless of how many earlier candidates passed or failed. -/
theorem c1_compatible_is_last_passing (w : World) (pkg cur latest : String)
    (vs : List String) (s : EnvState) (st : PackageUpdateStatus)
    (s2 : EnvState)
    (hcur : lookupCurrent w.currentPackages pkg = some cur)
    (hlat : get_latest_version w pkg = .ok (some latest)) (hne : latest ≠ "")
    (hrng : get_version_range w pkg cur latest = .ok vs)
    (hfind : find_compatible_update w pkg s = .ok (st, s2)) :
    st.compatible_version =
      (((runOutcomes w pkg s (vs.filter (· ≠ cur))).1.filter
          (fun p => p.2.success)).map (·.1)).getLast? := by
  rw [find_compatible_update_spec w pkg cur latest vs s hcur hlat hne hrng]
    at hfind
  cases hfind
  show lastPassAux none _ = _
  rw [lastPassAux_eq, optOrElse_none_right]

/-- C3: under a known current version and a resolvable latest version,
the `tested_versions` of the returned status are exactly the resolver's
candidate list with every occurrence of the current version removed, in
the same order, and the current version never appears among them. -/
theorem c3_tested_is_filtered_range (w : World) (pkg cur latest : String)
    (vs : List String) (s : EnvState) (st : PackageUpdateStatus)
    (s2 : EnvState)
    (hcur : lookupCurrent w.currentPackages pkg = some cur)
    (hlat : get_latest_version w pkg = .ok (some latest)) (hne : latest ≠ "")
    (hrng : get_version_range w pkg cur latest = .ok vs)
    (hfind : find_compatible_update w pkg s = .ok (st, s2)) :
    st.tested_versions = vs.filter (· ≠ cur) ∧
    st.current_version ∉ st.tested_versions := by
  rw [find_compatible_update_spec w pkg cur latest vs s hcur hlat hne hrng]
    at hfind
  cases hfind
  refine ⟨rfl, ?_⟩
  intro hmem
  have hne' := (List.mem_filter.mp hmem).2
  simp at hne'

/-- C2: every key of `failed_versions` appears in `tested_versions`, and
`compatible_version`, when present and distinct from the current
version, is not a key of `failed_versions` and appears in
`tested_versions`.  The hypothesis `hrel` records that PyPI release
lists are keys of a JSON object, hence duplicate-free. -/
theorem c2_status_invariants (w : World) (pkg : String) (s : EnvState)
    (st : PackageUpdateStatus) (s2 : EnvState)
    (hrel : ∀ p stc b rel, w.registry p = .resp stc b →
      b.releases = some rel → rel.Nodup)
    (hfind : find_compatible_update w pkg s = .ok (st, s2)) :
    (∀ v ∈ st.failed_versions.map (·.1), v ∈ st.tested_versions) ∧
    (∀ v, st.compatible_version = some v → v ≠ st.current_version →
      v ∉ st.failed_versions.map (·.1) ∧ v ∈ st.tested_versions) := by
  rcases find_compatible_update_cases w pkg s st s2 hfind with
    ⟨ht, hf, hc, _⟩ | ⟨cur, latest, vs, hcur, hlat, hne, hrng, hst, hs2⟩
  · constructor
    · intro v hv
      rw [hf] at hv
      simp at hv
    · intro v hv _
      rw [hc] at hv
      cases hv
  · subst hst
    have hvnd : vs.Nodup := get_version_range_nodup w pkg cur latest vs hrel hrng
    have hfsnd : (vs.filter (· ≠ cur)).Nodup := hvnd.filter _
    have htrmap : ((runOutcomes w pkg s (vs.filter (· ≠ cur))).1.map (·.1)) =
        vs.filter (· ≠ cur) := runOutcomes_map_fst w pkg s _
    have htrnd : (((runOutcomes w pkg s (vs.filter (· ≠ cur))).1.map (·.1))).Nodup := by
      rw [htrmap]
      exact hfsnd
    constructor
    · intro v hv
      have hsome := (mem_keys_iff_dlookup_isSome _ _).mp hv
      rcases accFailed_isSome_inv _ v [] hsome with hemp | ⟨r, hr, _⟩
      · simp [dlookup] at hemp
      · show v ∈ vs.filter (· ≠ cur)
        rw [← htrmap]
        exact List.mem_map.mpr ⟨(v, r), hr, rfl⟩
    · intro v hcomp hvne
      obtain ⟨r, hrmem, hrsucc⟩ := lastPassAux_mem _ v hcomp
      constructor
      · intro hkey
        have hsome := (mem_keys_iff_dlookup_isSome _ _).mp hkey
        rcases accFailed_isSome_inv _ v [] hsome with hemp | ⟨r', hr', hs'⟩
        · simp [dlookup] at hemp
        · have heq : (v, r) = (v, r') :=
            List.inj_on_of_nodup_map htrnd hrmem hr' rfl
          have hrr : r = r' := congrArg Prod.snd heq
          rw [← hrr, hrsucc] at hs'
          exact Bool.noConfusion hs'
      · show v ∈ vs.filter (· ≠ cur)
        rw [← htrmap]
        exact List.mem_map.mpr ⟨(v, r), hrmem, rfl⟩

/-- C4: if the shared baseline setup fails, `update_all_packages`
returns the empty mapping (with the environment exactly as the failed
setup left it, no per-package work done); if it succeeds and the run
returns a mapping, that mapping has exactly one entry per package of the
current package set, in order.  Python dict keys are distinct, which the
`hnd` hypothesis records. -/
theorem c4_baseline_gate (w : World) (s : EnvState)
    (hnd : (w.currentPackages.map (·.1)).Nodup) :
    ((setup_test_environment w s).1 = false →
      update_all_packages w s = .ok ([], (setup_test_environment w s).2)) ∧
    ((setup_test_environment w s).1 = true →
      ∀ res s2, update_all_packages w s = .ok (res, s2) →
        res.map (·.1) = w.currentPackages.map (·.1)) := by
  constructor
  · intro hfail
    cases hset : setup_test_environment w s with
    | mk ok s1 =>
      rw [hset] at hfail
      have hok : ok = false := hfail
      subst hok
      simp [update_all_packages, hset]
  · intro hok res s2 h
    cases hset : setup_test_environment w s with
    | mk ok s1 =>
      rw [hset] at hok
      have hok' : ok = true := hok
      subst hok'
      simp only [update_all_packages, hset] at h
      have := updateAllGo_keys w (w.currentPackages.map (·.1)) [] s1 res s2
        hnd (fun n _ => rfl) h
      rw [this]
      simp

/-- C5: the claim as stated is false — a malformed 200 registry response
makes `find_compatible_update` raise `KeyError` instead of returning a
status record. -/
theorem c5_counterexample :
    find_compatible_update wBadRegistry "requests" none =
      .error PyExc.keyError := rfl

/-- C5 (amended): provided every 200 registry response carries the
`info.version` and `releases` keys, `find_compatible_update` never
raises and always returns a complete status record; `update_all_packages`
never raises either, and whenever the baseline setup succeeded, every
package of the current set receives an entry — no package's failure
prevents the remaining packages from being evaluated. -/
theorem c5_no_raise_amended (w : World) (hwf : registryWellFormed w) :
    (∀ pkg s, ∃ st s2, find_compatible_update w pkg s = .ok (st, s2)) ∧
    (∀ s, ∃ out, update_all_packages w s = .ok out) ∧
    (∀ s res s2, (setup_test_environment w s).1 = true →
      update_all_packages w s = .ok (res, s2) →
      ∀ n ∈ w.currentPackages.map (·.1), (dlookup res n).isSome) := by
  refine ⟨fun pkg s => find_compatible_update_ok w pkg s hwf, ?_, ?_⟩
  · intro s
    cases hset : setup_test_environment w s with
    | mk ok s1 =>
      cases ok with
      | false => exact ⟨([], s1), by simp [update_all_packages, hset]⟩
      | true =>
        obtain ⟨out, hout⟩ :=
          updateAllGo_ok w hwf (w.currentPackages.map (·.1)) [] s1
        exact ⟨out, by simp [update_all_packages, hset, hout]⟩
  · intro s res s2 hok h n hn
    cases hset : setup_test_environment w s with
    | mk ok s1 =>
      rw [hset] at hok
      have hok' : ok = true := hok
      subst hok'
      simp only [update_all_packages, hset] at h
      exact updateAllGo_covers w _ [] s1 res s2 h n (Or.inl hn)

/-- C7: `setup_test_environment` is idempotent on the installed-package
state of the sandbox: a second consecutive call leaves the state exactly
where the first left it, because each call destroys any existing sandbox
and rebuilds the pinned baseline from scratch. -/
theorem c7_setup_idempotent (w : World) (s : EnvState) :
    (setup_test_environment w (setup_test_environment w s).2).2 =
      (setup_test_environment w s).2 := by
  rw [setup_state_eq w s, setup_state_eq w _]
  by_cases h1 : (s.isSome && !w.rmtreeOk) = true
  · simp [h1]
  · by_cases hv : w.venvCreateOk = true
    · by_cases h2 : (((w.pipInstallReqs (some w.freshPackages)
          w.currentPackages).2).isSome && !w.rmtreeOk) = true <;>
        simp [h1, hv, h2]
    · by_cases h3 : (w.createFailState.isSome && !w.rmtreeOk) = true <;>
        simp [h1, hv, h3]

/-- C8: the boolean result of the per-candidate environment reset is
discarded by `find_compatible_update` — even under a world where
`setup_test_environment` returns `false` on every state, every candidate
distinct from the current version is still walked (installed and
tested): `tested_versions` is the full filtered candidate list, and
every failing candidate of the walk is still recorded in
`failed_versions`. -/
theorem c8_setup_result_discarded (w : World) (pkg cur latest : String)
    (vs : List String) (s : EnvState) (st : PackageUpdateStatus)
    (s2 : EnvState)
    (hsetup : ∀ t, (setup_test_environment w t).1 = false)
    (hcur : lookupCurrent w.currentPackages pkg = some cur)
    (hlat : get_latest_version w pkg = .ok (some latest)) (hne : latest ≠ "")
    (hrng : get_version_range w pkg cur latest = .ok vs)
    (hfind : find_compatible_update w pkg s = .ok (st, s2)) :
    st.tested_versions = vs.filter (· ≠ cur) ∧
    (∀ p ∈ (runOutcomes w pkg s (vs.filter (· ≠ cur))).1,
      p.2.success = false → (dlookup st.failed_versions p.1).isSome) := by
  rw [find_compatible_update_spec w pkg cur latest vs s hcur hlat hne hrng]
    at hfind
  cases hfind
  refine ⟨rfl, ?_⟩
  intro p hp hfail
  show (dlookup (accFailed [] _) p.1).isSome
  refine accFailed_isSome_of_fail _ p.1 p.2 hfail [] ?_
  rw [Prod.mk.eta]
  exact hp

/-- C9: a package pinned to no version (`None`, as produced by a
requirements line without a version) is treated exactly like an absent
package: `find_compatible_update` returns the all-"unknown" status with
empty collections, and `test_package_update` returns a failing
`UpdateResult` with `old_version = "unknown"`. -/
theorem c9_versionless_like_absent (w : World) (pkg ver : String)
    (s : EnvState)
    (h : dlookup w.currentPackages pkg = some none ∨
      dlookup w.currentPackages pkg = none) :
    find_compatible_update w pkg s =
      .ok (⟨pkg, "unknown", "unknown", none, [], []⟩, s) ∧
    test_package_update w pkg ver s =
      (⟨false, "unknown", ver,
        some ("Package " ++ pkg ++ " not found in current packages"),
        none⟩, s) := by
  have hcur : lookupCurrent w.currentPackages pkg = none := by
    unfold lookupCurrent
    rcases h with h | h <;> rw [h]
  exact ⟨by simp [find_compatible_update, hcur],
    by simp [test_package_update, hcur]⟩

/-- With no test files and a tracked package, a candidate whose
installation succeeds at state `t` fails with exactly the message
`"Tests failed"` and the sentinel test output. -/
theorem test_package_update_no_tests (w : World) (pkg v cur : String)
    (t : EnvState) (hTF : w.testFiles = [])
    (hcur : lookupCurrent w.currentPackages pkg = some cur)
    (hinst : (install_package w t pkg (some v)).1 = true) :
    test_package_update w pkg v t =
      (⟨false, cur, v, some "Tests failed", some "No test files found"⟩,
       (install_package w t pkg (some v)).2) := by
  simp [test_package_update, hcur, hinst, run_tests, hTF]

/-- C10: with no test files discovered, `run_tests` returns the sentinel
`(false, "No test files found")`; consequently `compatible_version` is
never set, every walked candidate is attempted at its per-candidate
reset state (`runStates`) and ends up in `failed_versions`, and every
candidate whose installation succeeds (at the state where the loop
actually attempted it) is recorded there with the message
`"Tests failed"`.  `hrel` records that PyPI release lists, being JSON
object keys, are duplicate-free. -/
theorem c10_no_test_files (w : World) (pkg cur latest : String)
    (vs : List String) (s : EnvState) (st : PackageUpdateStatus)
    (s2 : EnvState) (hTF : w.testFiles = [])
    (hrel : ∀ p stc b rel, w.registry p = .resp stc b →
      b.releases = some rel → rel.Nodup)
    (hcur : lookupCurrent w.currentPackages pkg = some cur)
    (hlat : get_latest_version w pkg = .ok (some latest)) (hne : latest ≠ "")
    (hrng : get_version_range w pkg cur latest = .ok vs)
    (hfind : find_compatible_update w pkg s = .ok (st, s2)) :
    (∀ t, run_tests w t = (false, "No test files found")) ∧
    st.compatible_version = none ∧
    (runStates w pkg s (vs.filter (· ≠ cur))).map (·.1) =
      st.tested_versions ∧
    (∀ v ∈ st.tested_versions, (dlookup st.failed_versions v).isSome) ∧
    (∀ q ∈ runStates w pkg s (vs.filter (· ≠ cur)),
      (install_package w q.2 pkg (some q.1)).1 = true →
      dlookup st.failed_versions q.1 = some (some "Tests failed")) := by
  have hrt : ∀ t, run_tests w t = (false, "No test files found") := by
    intro t
    simp [run_tests, hTF]
  rw [find_compatible_update_spec w pkg cur latest vs s hcur hlat hne hrng]
    at hfind
  cases hfind
  have hfailall : ∀ u t, (test_package_update w pkg u t).1.success = false := by
    intro u t
    by_cases hi : (install_package w t pkg (some u)).1 = true
    · rw [test_package_update_no_tests w pkg u cur t hTF hcur hi]
    · simp [test_package_update, hcur, hi]
  have htr : ∀ p ∈ (runOutcomes w pkg s (vs.filter (· ≠ cur))).1,
      p.2.success = false :=
    runOutcomes_entries w pkg (fun v r => r.success = false)
      (fun v t => hfailall v t) _ s
  have htrnd : (((runOutcomes w pkg s (vs.filter (· ≠ cur))).1.map
      (·.1))).Nodup := by
    rw [runOutcomes_map_fst]
    exact (get_version_range_nodup w pkg cur latest vs hrel hrng).filter _
  refine ⟨hrt, ?_, ?_, ?_, ?_⟩
  · show lastPassAux none _ = none
    exact lastPassAux_of_all_fail _ none htr
  · exact runStates_map_fst w pkg _ s
  · intro v hv
    have hvtr : v ∈ ((runOutcomes w pkg s (vs.filter (· ≠ cur))).1.map (·.1)) := by
      rw [runOutcomes_map_fst]
      exact hv
    obtain ⟨p, hp, hfst⟩ := List.mem_map.mp hvtr
    refine accFailed_isSome_of_fail _ v p.2 (htr p hp) [] ?_
    rw [← hfst, Prod.mk.eta]
    exact hp
  · intro q hq hinst
    have hmem := runOutcomes_of_runStates w pkg _ s q hq
    have hteq := test_package_update_no_tests w pkg q.1 cur q.2 hTF hcur hinst
    have hrfst : (test_package_update w pkg q.1 q.2).1 =
        ⟨false, cur, q.1, some "Tests failed", some "No test files found"⟩ :=
      congrArg Prod.fst hteq
    rw [hrfst] at hmem
    exact accFailed_lookup_of_fail q.1
      ⟨false, cur, q.1, some "Tests failed", some "No test files found"⟩
      rfl _ htrnd hmem []

/-- C6 counterexample: `verify_installation` does raise.  When a
required, version-pinned package appears in the installed mapping only
under a different letter case, the case-insensitive membership test
passes but the subsequent exact-name subscript `installed[package]`
raises `KeyError`. -/
theorem c6_counterexample :
    verifyReqs [("requests", "2.0")] [("Requests", some "2.0")] =
      .error PyExc.keyError := rfl

/-- C6 (amended): provided every required package carrying a (truthy)
pinned version that matches case-insensitively is also present under its
exact name, `verify_installation`'s core never raises, and it returns
`true` iff every required package appears case-insensitively among the
installed packages and, whenever a version is specified, the
exact-name installed version equals it; otherwise it returns `false`. -/
theorem c6_verify_amended (reqs : List (String × Option String))
    (installed : List (String × String))
    (hsafe : ∀ p v, (p, some v) ∈ reqs → v ≠ "" →
      (installed.any fun kv => pyLower kv.1 = pyLower p) = true →
      (dlookup installed p).isSome) :
    (∃ b, verifyReqs installed reqs = .ok b) ∧
    (verifyReqs installed reqs = .ok true ↔
      ∀ pv ∈ reqs,
        (installed.any fun kv => pyLower kv.1 = pyLower pv.1) = true ∧
        ∀ v, pv.2 = some v → v ≠ "" → dlookup installed pv.1 = some v) := by
  induction reqs with
  | nil => exact ⟨⟨true, rfl⟩, by simp [verifyReqs]⟩
  | cons pv rest ih =>
    obtain ⟨p, vOpt⟩ := pv
    have hsafe' : ∀ p' v', (p', some v') ∈ rest → v' ≠ "" →
        (installed.any fun kv => pyLower kv.1 = pyLower p') = true →
        (dlookup installed p').isSome :=
      fun p' v' hm ht hc => hsafe p' v' (List.mem_cons_of_mem _ hm) ht hc
    obtain ⟨⟨b, hb⟩, hiff⟩ := ih hsafe'
    by_cases hmem : (installed.any fun kv => pyLower kv.1 = pyLower p) = true
    · cases vOpt with
      | none =>
        have hred : verifyReqs installed ((p, none) :: rest) =
            verifyReqs installed rest := by
          simp [verifyReqs, hmem]
        constructor
        · exact ⟨b, by rw [hred]; exact hb⟩
        · rw [hred, hiff]
          simp only [List.forall_mem_cons]
          constructor
          · exact fun h => ⟨⟨hmem, fun v hv => Option.noConfusion hv⟩, h⟩
          · exact fun h => h.2
      | some v =>
        by_cases hv : v = ""
        · subst hv
          have hred : verifyReqs installed ((p, some "") :: rest) =
              verifyReqs installed rest := by
            simp [verifyReqs, hmem]
          constructor
          · exact ⟨b, by rw [hred]; exact hb⟩
          · rw [hred, hiff]
            simp only [List.forall_mem_cons]
            constructor
            · refine fun h => ⟨⟨hmem, fun v' hv' hne => ?_⟩, h⟩
              cases hv'
              exact absurd rfl hne
            · exact fun h => h.2
        · have hlook : (dlookup installed p).isSome :=
            hsafe p v (List.mem_cons_self _ _) hv hmem
          obtain ⟨iv, hiv⟩ := Option.isSome_iff_exists.mp hlook
          by_cases hve : iv = v
          · rw [hve] at hiv
            have hred : verifyReqs installed ((p, some v) :: rest) =
                verifyReqs installed rest := by
              simp [verifyReqs, hmem, hv, hiv]
            constructor
            · exact ⟨b, by rw [hred]; exact hb⟩
            · rw [hred, hiff]
              simp only [List.forall_mem_cons]
              constructor
              · refine fun h => ⟨⟨hmem, fun v' hv' _ => ?_⟩, h⟩
                cases hv'
                exact hiv
              · exact fun h => h.2
          · have hred : verifyReqs installed ((p, some v) :: rest) =
                .ok false := by
              simp [verifyReqs, hmem, hv, hiv, hve]
            constructor
            · exact ⟨false, hred⟩
            · rw [hred]
              simp only [List.forall_mem_cons]
              constructor
              · intro h
                exact absurd h (by simp)
              · intro h
                have hvv := h.1.2 v rfl hv
                rw [hiv] at hvv
                injection hvv with hvv2
                exact absurd hvv2 hve
    · have hred : verifyReqs installed ((p, vOpt) :: rest) = .ok false := by
        simp [verifyReqs, hmem]
      constructor
      · exact ⟨false, hred⟩
      · rw [hred]
        simp only [List.forall_mem_cons]
        constructor
        · intro h
          exact absurd h (by simp)
        · intro h
          exact absurd h.1.1 hmem

/-- C1 witness at `wGood`. -/
theorem c1_witness :
    stGood.compatible_version =
      (((runOutcomes wGood "p" none
          (["1.0", "1.1", "1.2"].filter (· ≠ "1.0"))).1.filter
            (fun p => p.2.success)).map (·.1)).getLast? :=
  c1_compatible_is_last_passing wGood "p" "1.0" "1.2" ["1.0", "1.1", "1.2"]
    none stGood (some [("pip", "24.0"), ("p", "1.2")]) rfl rfl (by decide)
    rfl rfl

/-- C2 witness at `wGood`. -/
theorem c2_witness :
    (∀ v ∈ stGood.failed_versions.map (·.1), v ∈ stGood.tested_versions) ∧
    (∀ v, stGood.compatible_version = some v → v ≠ stGood.current_version →
      v ∉ stGood.failed_versions.map (·.1) ∧ v ∈ stGood.tested_versions) :=
  c2_status_invariants wGood "p" none stGood
    (some [("pip", "24.0"), ("p", "1.2")])
    (by
      intro p stc b rel h1 h2
      have h1' : RegistryResp.resp 200 ⟨some "1.2", some ["1.0", "1.1", "1.2"]⟩ =
          RegistryResp.resp stc b := h1
      cases h1'
      have h2' : some ["1.0", "1.1", "1.2"] = some rel := h2
      cases h2'
      decide)
    rfl

/-- C3 witness at `wGood`. -/
theorem c3_witness :
    stGood.tested_versions = ["1.0", "1.1", "1.2"].filter (· ≠ "1.0") ∧
    stGood.current_version ∉ stGood.tested_versions :=
  c3_tested_is_filtered_range wGood "p" "1.0" "1.2" ["1.0", "1.1", "1.2"]
    none stGood (some [("pip", "24.0"), ("p", "1.2")]) rfl rfl (by decide)
    rfl rfl

/-- C4 witness at `wSetupFail` (whose baseline setup fails). -/
theorem c4_witness :
    ((setup_test_environment wSetupFail none).1 = false →
      update_all_packages wSetupFail none =
        .ok ([], (setup_test_environment wSetupFail none).2)) ∧
    ((setup_test_environment wSetupFail none).1 = true →
      ∀ res s2, update_all_packages wSetupFail none = .ok (res, s2) →
        res.map (·.1) = wSetupFail.currentPackages.map (·.1)) :=
  c4_baseline_gate wSetupFail none (by decide)

/-- C5 (amended) witness at `wGood`. -/
theorem c5_amended_witness :
    registryWellFormed wGood ∧
    ((∀ pkg s, ∃ st s2, find_compatible_update wGood pkg s = .ok (st, s2)) ∧
     (∀ s, ∃ out, update_all_packages wGood s = .ok out) ∧
     (∀ s res s2, (setup_test_environment wGood s).1 = true →
       update_all_packages wGood s = .ok (res, s2) →
       ∀ n ∈ wGood.currentPackages.map (·.1), (dlookup res n).isSome)) := by
  have hwf : registryWellFormed wGood := by
    intro pkg body h
    have h' : RegistryResp.resp 200 ⟨some "1.2", some ["1.0", "1.1", "1.2"]⟩ =
        RegistryResp.resp 200 body := h
    cases h'
    exact ⟨rfl, rfl⟩
  exact ⟨hwf, c5_no_raise_amended wGood hwf⟩

/-- C6 (amended) witness: a matching exact-case requirement. -/
theorem c6_amended_witness :
    (∃ b, verifyReqs [("six", "1.16.0")] [("six", some "1.16.0")] = .ok b) ∧
    (verifyReqs [("six", "1.16.0")] [("six", some "1.16.0")] = .ok true ↔
      ∀ pv ∈ ([("six", some "1.16.0")] : List (String × Option String)),
        ([("six", "1.16.0")].any fun kv => pyLower kv.1 = pyLower pv.1) = true ∧
        ∀ v, pv.2 = some v → v ≠ "" →
          dlookup [("six", "1.16.0")] pv.1 = some v) :=
  c6_verify_amended _ _ (by
    intro p v hm ht hc
    have h := List.mem_singleton.mp hm
    have h1 : p = "six" := congrArg Prod.fst h
    subst h1
    rfl)

/-- C8 witness at `wSetupFail`: every per-candidate reset fails, yet
both candidates are tested and recorded. -/
theorem c8_witness :
    (∀ t, (setup_test_environment wSetupFail t).1 = false) ∧
    (stFail.tested_versions = ["1.0", "1.1", "1.2"].filter (· ≠ "1.0") ∧
     (∀ p ∈ (runOutcomes wSetupFail "p" none
         (["1.0", "1.1", "1.2"].filter (· ≠ "1.0"))).1,
       p.2.success = false → (dlookup stFail.failed_versions p.1).isSome)) := by
  have hs : ∀ t, (setup_test_environment wSetupFail t).1 = false := by
    intro t
    cases t <;> rfl
  exact ⟨hs, c8_setup_result_discarded wSetupFail "p" "1.0" "1.2"
    ["1.0", "1.1", "1.2"] none stFail none hs rfl rfl (by decide) rfl rfl⟩

/-- C9 witness: current packages parsed from the versionless
requirements line `requests`. -/
theorem c9_witness :
    find_compatible_update wNoVersion "requests" none =
      .ok (⟨"requests", "unknown", "unknown", none, [], []⟩, none) ∧
    test_package_update wNoVersion "requests" "1.0" none =
      (⟨false, "unknown", "1.0",
        some ("Package " ++ "requests" ++ " not found in current packages"),
        none⟩, none) :=
  c9_versionless_like_absent wNoVersion "requests" "1.0" none (Or.inl rfl)

/-- C10 witness at `wNoTests`: every candidate's installation succeeds,
and each is ledgered with "Tests failed". -/
theorem c10_witness :
    (∀ t, run_tests wNoTests t = (false, "No test files found")) ∧
    stNoTests.compatible_version = none ∧
    (runStates wNoTests "p" none
      (["1.0", "1.1", "1.2"].filter (· ≠ "1.0"))).map (·.1) =
      stNoTests.tested_versions ∧
    (∀ v ∈ stNoTests.tested_versions,
      (dlookup stNoTests.failed_versions v).isSome) ∧
    (∀ q ∈ runStates wNoTests "p" none
        (["1.0", "1.1", "1.2"].filter (· ≠ "1.0")),
      (install_package wNoTests q.2 "p" (some q.1)).1 = true →
      dlookup stNoTests.failed_versions q.1 = some (some "Tests failed")) :=
  c10_no_test_files wNoTests "p" "1.0" "1.2" ["1.0", "1.1", "1.2"] none
    stNoTests (some [("pip", "24.0"), ("p", "1.2")]) rfl
    (by
      intro p stc b rel h1 h2
      have h1' : RegistryResp.resp 200 ⟨some "1.2", some ["1.0", "1.1", "1.2"]⟩ =
          RegistryResp.resp stc b := h1
      cases h1'
      have h2' : some ["1.0", "1.1", "1.2"] = some rel := h2
      cases h2'
      decide)
    rfl rfl (by decide) rfl rfl

end PkgUpd
